import Mathlib

/-!
Verification of the single-page web content extraction pipeline of
`src/main.py`.

The development shallowly embeds the program:

* The URL helpers model the algorithms of CPython `Lib/urllib/parse.py`
  (`urlparse`/`urlsplit`, `urlunsplit`, `urljoin`, `geturl`) that the source
  calls.  They are transcribed at the character-list level.  Simplifications of
  the external library model: the `params` component is kept inside the path
  (as `urlsplit` does), the control-character sanitisation of newer CPython and
  the IPv6 bracket `ValueError` are not modelled, `str.strip` and `int()` are
  modelled for ASCII data (no Unicode whitespace, no `_` digit grouping).
* The network, BeautifulSoup and Selenium are external collaborators.  They
  are modelled as oracles (`FetchEvent`, `BsResult`, `SelResult`) supplied to
  the embedded control flow, which is translated branch by branch from the
  source.  Side effects (sleeps, outgoing GET requests) are recorded in an
  `Action` trace.
-/

namespace GetData

/-- ASCII whitespace stripped by Python `str.strip()`. -/
def isPySpace (c : Char) : Bool :=
  c = ' ' || c = '\t' || c = '\n' || c = '\r' || c = '\x0b' || c = '\x0c'

/-- Python `str.strip()` on a character list. -/
def stripL (l : List Char) : List Char :=
  ((l.dropWhile isPySpace).reverse.dropWhile isPySpace).reverse

/-- Python `str.strip()`. -/
def pyStrip (s : String) : String :=
  ⟨stripL s.data⟩

/-- `listStartsWith l p` models Python `l.startswith(p)` on character lists. -/
def listStartsWith : List Char → List Char → Bool
  | _, [] => true
  | [], _ :: _ => false
  | c :: cs, p :: ps => c == p && listStartsWith cs ps

/-- Python `s.startswith(p)`. -/
def pyStartsWith (s p : String) : Bool :=
  listStartsWith s.data p.data

/-- Split a character list at the first occurrence of `sep`, returning the
    parts before and after it; `none` when `sep` does not occur.  Used to model
    `str.find(':')` and `str.split(sep, 1)`. -/
def splitAtFirst (sep : Char) : List Char → Option (List Char × List Char)
  | [] => none
  | c :: cs =>
    if c = sep then some ([], cs)
    else
      match splitAtFirst sep cs with
      | some (a, b) => some (c :: a, b)
      | none => none

/-- Python `url.split(sep, 1)` when present, identity with empty tail when
    absent (matching how `urlsplit` leaves the query/fragment empty). -/
def splitOff (sep : Char) (l : List Char) : List Char × List Char :=
  match splitAtFirst sep l with
  | some (a, b) => (a, b)
  | none => (l, [])

/-- Python `str.split('/')` (always returns at least one piece). -/
def splitSlash : List Char → List (List Char)
  | [] => [[]]
  | c :: cs =>
    match splitSlash cs with
    | [] => [[]]
    | s :: rest => if c = '/' then [] :: s :: rest else (c :: s) :: rest

/-- Python `'/'.join(pieces)`. -/
def joinSlash : List (List Char) → List Char
  | [] => []
  | [x] => x
  | x :: y :: ys => x ++ '/' :: joinSlash (y :: ys)

/-- Characters allowed in a URL scheme (`scheme_chars` of `urllib.parse`). -/
def schemeChar (c : Char) : Bool :=
  c.isAlphanum || c = '+' || c = '-' || c = '.'

/-- Scheme detection of `urlsplit`: take everything before the first `:` as
    the (lowercased) scheme when it is a nonempty valid scheme starting with a
    letter, otherwise use the caller-supplied default scheme. -/
def splitSchemeL (url : List Char) (defScheme : List Char) :
    List Char × List Char :=
  match splitAtFirst ':' url with
  | some (pre, post) =>
    match pre with
    | [] => (defScheme, url)
    | c :: _ =>
      if c.isAlpha && pre.all schemeChar then (pre.map Char.toLower, post)
      else (defScheme, url)
  | none => (defScheme, url)

/-- `_splitnetloc`: the netloc extends to the first `/`, `?` or `#`. -/
def splitNetloc : List Char → List Char × List Char
  | [] => ([], [])
  | c :: cs =>
    if c = '/' || c = '?' || c = '#' then ([], c :: cs)
    else
      match splitNetloc cs with
      | (a, b) => (c :: a, b)

/-- Result of `urlsplit` (the `params` component of `urlparse` is kept inside
    `path`; `geturl` reassembles it identically either way). -/
structure SplitUrl where
  scheme : List Char
  netloc : List Char
  path : List Char
  query : List Char
  fragment : List Char
deriving DecidableEq, Repr

/-- Model of `urllib.parse.urlsplit url defScheme`. -/
def urlsplitL (url : List Char) (defScheme : List Char) : SplitUrl :=
  let sr := splitSchemeL url defScheme
  let nr :=
    if listStartsWith sr.2 ['/', '/'] then splitNetloc (sr.2.drop 2)
    else ([], sr.2)
  let fr := splitOff '#' nr.2
  let qr := splitOff '?' fr.1
  ⟨sr.1, nr.1, qr.1, qr.2, fr.2⟩

/-- Model of `urllib.parse.urlunsplit` (also `geturl`). -/
def urlunsplitL (p : SplitUrl) : List Char :=
  let url1 :=
    if p.netloc ≠ [] || (p.path ≠ [] && listStartsWith p.path ['/', '/']) then
      '/' :: '/' :: p.netloc ++
        (if p.path ≠ [] && !listStartsWith p.path ['/'] then '/' :: p.path
         else p.path)
    else p.path
  let url2 := if p.scheme ≠ [] then p.scheme ++ ':' :: url1 else url1
  let url3 := if p.query ≠ [] then url2 ++ '?' :: p.query else url2
  if p.fragment ≠ [] then url3 ++ '#' :: p.fragment else url3

/-- `uses_relative` of `urllib.parse`. -/
def usesRelative : List String :=
  ["", "ftp", "http", "gopher", "nntp", "imap", "wais", "file", "https",
   "shttp", "mms", "prospero", "rtsp", "rtspu", "sftp", "svn", "svn+ssh",
   "ws", "wss"]

/-- `uses_netloc` of `urllib.parse`. -/
def usesNetloc : List String :=
  ["", "ftp", "http", "gopher", "nntp", "telnet", "imap", "wais", "file",
   "mms", "https", "shttp", "snews", "prospero", "rtsp", "rtspu", "rsync",
   "svn", "svn+ssh", "sftp", "nfs", "git", "git+ssh", "ws", "wss"]

/-- Membership of a character-list scheme in one of the scheme tables. -/
def schemeMem (s : List Char) (table : List String) : Bool :=
  table.contains ⟨s⟩

/-- `segments[1:-1] = filter(None, segments[1:-1])` of `urljoin`: drop the
    empty interior segments, keeping the first and last. -/
def filterInterior : List (List Char) → List (List Char)
  | [] => []
  | [x] => [x]
  | x :: y :: ys =>
    match (y :: ys).getLast? with
    | some lst => x :: (((y :: ys).dropLast.filter (· ≠ [])) ++ [lst])
    | none => [x]

/-- The `resolved_path` accumulation loop of `urljoin`: `..` pops (ignoring
    underflow), `.` is skipped, anything else is appended. -/
def resolveSegs (acc : List (List Char)) : List (List Char) → List (List Char)
  | [] => acc
  | s :: ss =>
    if s = ['.', '.'] then resolveSegs acc.dropLast ss
    else if s = ['.'] then resolveSegs acc ss
    else resolveSegs (acc ++ [s]) ss

/-- Model of `urllib.parse.urljoin` (CPython ≥ 3.8 algorithm). -/
def urljoinL (base url : List Char) : List Char :=
  if base = [] then url
  else if url = [] then base
  else
    let b := urlsplitL base []
    let u := urlsplitL url b.scheme
    if u.scheme ≠ b.scheme || !schemeMem u.scheme usesRelative then url
    else
      let inNetloc := schemeMem u.scheme usesNetloc
      if inNetloc && u.netloc ≠ [] then urlunsplitL u
      else
        let netloc := if inNetloc then b.netloc else u.netloc
        if u.path = [] then
          let query := if u.query ≠ [] then u.query else b.query
          urlunsplitL ⟨u.scheme, netloc, b.path, query, u.fragment⟩
        else
          let baseParts0 := splitSlash b.path
          let baseParts :=
            if baseParts0.getLast? ≠ some [] then baseParts0.dropLast
            else baseParts0
          let segments :=
            if listStartsWith u.path ['/'] then splitSlash u.path
            else filterInterior (baseParts ++ splitSlash u.path)
          let rp0 := resolveSegs [] segments
          let rp :=
            if segments.getLast? = some ['.'] ∨ segments.getLast? = some ['.', '.']
            then rp0 ++ [[]] else rp0
          let newPath := if joinSlash rp = [] then ['/'] else joinSlash rp
          urlunsplitL ⟨u.scheme, netloc, newPath, u.query, u.fragment⟩

/-- `urljoin` on strings, as called at `main.py:156` and `main.py:204`. -/
def urljoin (base url : String) : String :=
  ⟨urljoinL base.data url.data⟩

/-- A string is an absolute URL when `urlsplit` (with no default scheme)
    extracts a nonempty scheme from it. -/
def isAbsolute (s : String) : Bool :=
  (urlsplitL s.data []).scheme ≠ []

/-- `CrawlerAgent._normalize_url` (`main.py:34-39`): prepend `https://` when
    the URL starts with neither `http://` nor `https://`, then round-trip
    through `urlparse(url).geturl()`. -/
def normalize_url (url : String) : String :=
  let l :=
    if pyStartsWith url "http://" || pyStartsWith url "https://" then url.data
    else "https://".data ++ url.data
  ⟨urlunsplitL (urlsplitL l [])⟩

/-- Value of a nonempty all-digit character list. -/
def digitsVal (ds : List Char) : Option Nat :=
  if ds ≠ [] && ds.all Char.isDigit then
    some (ds.foldl (fun a c => a * 10 + (c.toNat - '0'.toNat)) 0)
  else none

/-- Model of Python `int(s)` on strings: surrounding whitespace is ignored,
    an optional sign precedes the digits; anything else raises `ValueError`,
    modelled as `none`.  (The `_` digit-grouping of Python 3.6+ is not
    modelled; the claims only evaluate it on plain digit strings and on
    non-numeric strings.) -/
def pyInt (s : String) : Option Int :=
  match stripL s.data with
  | '+' :: ds => (digitsVal ds).map (fun n => (n : Int))
  | '-' :: ds => (digitsVal ds).map (fun n => -(n : Int))
  | ds => (digitsVal ds).map (fun n => (n : Int))

/-! ## Fetch stage (`CrawlerAgent.fetch_content`, `main.py:51-107`)

The HTTP transport is an external collaborator; each loop iteration's
interaction with it is summarised by one `FetchEvent` drawn from an oracle
`env : Nat → FetchEvent` indexed by the 0-based attempt number.  Sleeps and
outgoing GET requests are recorded in an `Action` trace. -/

/-- What the transport did on one attempt of the retry loop:
* `ok body` — HTTP 200 with this body (`response.text`);
* `forbidden` — HTTP 403;
* `rateLimited retryAfter` — HTTP 429 with the optional `Retry-After` header;
* `otherStatus code` — any other status code;
* `sslError second` — `requests.exceptions.SSLError`; `second` is `some body`
  when the unverified retry returned HTTP 200, `none` when it failed or
  returned any other status;
* `reqError msg` — `requests.exceptions.RequestException`;
* `fatal msg` — any other exception raised by the request. -/
inductive FetchEvent where
  | ok (body : String)
  | forbidden
  | rateLimited (retryAfter : Option String)
  | otherStatus (code : Nat)
  | sslError (second : Option String)
  | reqError (msg : String)
  | fatal (msg : String)
deriving DecidableEq, Repr

/-- Observable side effects of the fetch loop.  `request url attempt verify`
    is one `session.get` call (`verify := false` for the degraded SSL retry);
    `sleep secs` is one `time.sleep` call. -/
inductive Action where
  | sleep (secs : Int)
  | request (url : String) (attempt : Nat) (verify : Bool)
deriving DecidableEq, Repr

/-- The retry loop of `fetch_content`, one constructor branch per status /
    exception branch of the source.  `attempt` is the 0-based loop index,
    `remaining = max_retries - attempt` iterations are left.  On HTTP 429 the
    source runs `int(response.headers.get('Retry-After', delay * (attempt +
    1)))` and then `time.sleep(wait_time)`: a non-numeric header makes `int`
    raise `ValueError`, a negative value makes `time.sleep` raise `ValueError`;
    both are caught by the final `except Exception` branch which returns
    `None`. -/
def fetchGo (env : Nat → FetchEvent) (url : String) (delay : Nat) :
    Nat → Nat → Option String × List Action
  | _, 0 => (none, [])
  | attempt, r + 1 =>
    let pre := [Action.sleep delay, Action.request url attempt true]
    match env attempt with
    | .ok body => (some body, pre)
    | .forbidden => (none, pre)
    | .rateLimited retryAfter =>
      let waitTime : Option Int :=
        match retryAfter with
        | none => some ((delay * (attempt + 1) : Nat) : Int)
        | some s => pyInt s
      match waitTime with
      | none => (none, pre)
      | some n =>
        if n < 0 then (none, pre)
        else
          let rest := fetchGo env url delay (attempt + 1) r
          (rest.1, pre ++ Action.sleep n :: rest.2)
    | .otherStatus _ =>
      let rest := fetchGo env url delay (attempt + 1) r
      (rest.1, pre ++ rest.2)
    | .sslError second =>
      let pre2 := pre ++ [Action.request url attempt false]
      match second with
      | some body => (some body, pre2)
      | none =>
        let rest := fetchGo env url delay (attempt + 1) r
        (rest.1, pre2 ++ rest.2)
    | .reqError _ =>
      let rest := fetchGo env url delay (attempt + 1) r
      (rest.1, pre ++ Action.sleep ((delay * (attempt + 1) : Nat) : Int) :: rest.2)
    | .fatal _ => (none, pre)

/-- `CrawlerAgent.fetch_content(max_retries, delay)` together with its trace
    of side effects.  The fetched body (or `None`) is the first component. -/
def fetch_content (env : Nat → FetchEvent) (url : String)
    (maxRetries : Nat := 3) (delay : Nat := 2) : Option String × List Action :=
  fetchGo env url delay 0 maxRetries

/-- Number of primary (verified) GET requests in a trace — one per executed
    loop iteration. -/
def countReq : List Action → Nat
  | [] => 0
  | .request _ _ true :: rest => countReq rest + 1
  | _ :: rest => countReq rest

/-! ## Document model and extraction (`ParserAgent`, `main.py:109-216`)

BeautifulSoup's parse tree is modelled as a tree of element and text nodes
(mutually inductive with node lists so that all functions are structurally
recursive and kernel-evaluable).  Only the features the source uses are
modelled: tag names, the `class` attribute, the `href` attribute,
`find`/`find_all` (pre-order traversal of descendants), and
`get_text(strip=True)` (concatenation of the stripped text fragments). -/

mutual
inductive Node where
  | text (s : String) : Node
  | elem (tag : String) (classes : List String) (href : Option String)
      (children : NodeList) : Node
inductive NodeList where
  | nil : NodeList
  | cons (n : Node) (ns : NodeList) : NodeList
end

mutual
/-- All descendants of a node in document (pre-)order, the node excluded —
    the search space of `elem.find_all`. -/
def nodeDescendants : Node → List Node
  | .text _ => []
  | .elem _ _ _ cs => listDescendants cs
/-- All nodes of a forest in document (pre-)order — the search space of
    `soup.find` / `soup.find_all` on the whole document. -/
def listDescendants : NodeList → List Node
  | .nil => []
  | .cons n ns => n :: (nodeDescendants n ++ listDescendants ns)
end

mutual
/-- `elem.get_text(strip=True)`: concatenation of the stripped text
    fragments below the node. -/
def nodeText : Node → List Char
  | .text s => stripL s.data
  | .elem _ _ _ cs => listText cs
def listText : NodeList → List Char
  | .nil => []
  | .cons n ns => nodeText n ++ listText ns
end

/-- The tag-name list passed to every `find_all` call of the source. -/
def contentTags : List String :=
  ["p", "h1", "h2", "h3", "h4", "h5", "h6", "a"]

/-- The `class_` vocabulary of the content-div pass (`main.py:142`). -/
def contentClasses : List String :=
  ["content", "post-content", "entry-content", "article-content"]

/-- Does the node match `find_all(tags)` — an element whose tag is listed? -/
def hasTagIn (tags : List String) : Node → Bool
  | .text _ => false
  | .elem t _ _ _ => tags.contains t

/-- Is the node an element with the given tag (`soup.find(tag)` filter)? -/
def hasTag (tag : String) : Node → Bool
  | .text _ => false
  | .elem t _ _ _ => t == tag

/-- `find_all('div', class_=[...])` filter: a `div` one of whose classes is in
    the vocabulary. -/
def isContentDiv : Node → Bool
  | .text _ => false
  | .elem t cls _ _ => t == "div" && cls.any (fun c => contentClasses.contains c)

/-- `n.find_all(['p', 'h1', ..., 'a'])` on an element. -/
def tagNodes (n : Node) : List Node :=
  (nodeDescendants n).filter (hasTagIn contentTags)

/-- `soup.find_all(['p', 'h1', ..., 'a'])` on the whole document — the
    fallback pass of `parse` (`main.py:148`) and the single pass of
    `parse_with_selenium` (`main.py:198`). -/
def findAllTags (doc : NodeList) : List Node :=
  (listDescendants doc).filter (hasTagIn contentTags)

/-- Candidate collection of passes 1–3 of `parse` (`main.py:131-144`):
    descendants of the first `article`, then of the first `main`, then of
    every content-classed `div`, concatenated in that order. -/
def pass123 (doc : NodeList) : List Node :=
  (match (listDescendants doc).find? (hasTag "article") with
   | some a => tagNodes a
   | none => []) ++
  (match (listDescendants doc).find? (hasTag "main") with
   | some m => tagNodes m
   | none => []) ++
  (((listDescendants doc).filter isContentDiv).map tagNodes).foldr (· ++ ·) []

/-- The `content` list `parse` ends up iterating over: the pass 1–3
    candidates, or the whole-document pass when those are empty
    (`main.py:147-148`). -/
def contentOf (doc : NodeList) : List Node :=
  if (pass123 doc).isEmpty then findAllTags doc else pass123 doc

/-- One extracted entry, before it is rendered to the output string. -/
inductive Entry where
  | textE (t : String)
  | linkE (label : String) (url : String)
deriving DecidableEq, Repr

/-- The body of the filtering loop (`main.py:152-161` and `main.py:200-209`):
    an `a` element with a truthy `href` becomes a link entry whose URL is
    `urljoin(self.url, href)`; any other node becomes a text entry when its
    stripped text is longer than 20 characters.  (The loop only ever visits
    elements — `find_all` with tag names returns no text nodes.) -/
def entryOf (base : String) (n : Node) : Option Entry :=
  match n with
  | .elem "a" _ (some href) _ =>
    if href ≠ "" then some (.linkE ⟨nodeText n⟩ (urljoin base href)) else none
  | .elem "a" _ none _ => none
  | _ =>
    let t : String := ⟨nodeText n⟩
    if t.length > 20 then some (.textE t) else none

/-- The `f"Link: {elem.get_text(strip=True)} - {full_url}"` formatting; text
    entries are appended verbatim. -/
def renderEntry : Entry → String
  | .textE t => t
  | .linkE label u => "Link: " ++ label ++ " - " ++ u

/-- The `parsed_data` list built from a candidate list. -/
def entriesOf (content : List Node) (base : String) : List Entry :=
  content.filterMap (entryOf base)

/-- Outcome of `BeautifulSoup(html_content, 'html.parser')` and the following
    tree traversal: the parsed document, or an exception (caught at
    `main.py:171-173`). -/
inductive BsResult where
  | ok (doc : NodeList)
  | raise (msg : String)

/-- Outcome of the Selenium session: the rendered document obtained from
    `driver.page_source`, or an exception raised inside the `try` block
    (caught at `main.py:212-214`). -/
inductive SelResult where
  | ok (doc : NodeList)
  | raise (msg : String)

/-- `ParserAgent.parse_with_selenium` (`main.py:175-216`): on success, the
    single whole-document pass and the same filtering loop, labelled
    `"Parsed with Selenium"`; on an exception, an empty list with the
    `"Selenium parsing error: ..."` label. -/
def parse_with_selenium (sel : SelResult) (url : String) :
    List String × String :=
  match sel with
  | .ok doc =>
    ((entriesOf (findAllTags doc) url).map renderEntry, "Parsed with Selenium")
  | .raise msg => ([], "Selenium parsing error: " ++ msg)

/-- `ParserAgent.parse` (`main.py:120-173`).  `html` is `self.html_content`
    (`None` or the fetched body; Python's `if not self.html_content` is falsy
    for both `None` and `""`), `url` is `self.url` — the URL the agent was
    constructed with.  The second component counts invocations of
    `parse_with_selenium`. -/
def ParserAgent.parse (bs : String → BsResult) (sel : SelResult)
    (html : Option String) (url : String) : (List String × String) × Nat :=
  match html with
  | none => (([], "Failed to fetch content"), 0)
  | some h =>
    if h = "" then (([], "Failed to fetch content"), 0)
    else
      match bs h with
      | .raise msg => (([], "Parsing error: " ++ msg), 0)
      | .ok doc =>
        let parsed := (entriesOf (contentOf doc) url).map renderEntry
        if parsed = [] then (parse_with_selenium sel url, 1)
        else ((parsed, "Parsed with BeautifulSoup"), 0)

/-- Result of one `process_url` run, together with the recorded side effects:
    `entries`/`method` are the returned pair (`entries = none` models the
    Python `None`), `actions` the fetch trace, `selCalls` the number of
    Selenium invocations. -/
structure RunResult where
  entries : Option (List String)
  method : String
  actions : List Action
  selCalls : Nat
deriving DecidableEq, Repr

/-- `process_url` (`main.py:218-231`).  The crawler fetches
    `self.url = _normalize_url(url)` with the default `max_retries=3, delay=2`;
    the parser, however, is constructed with the *raw* `url` argument
    (`main.py:223`), so link resolution uses the unnormalized URL.  A falsy
    (absent or empty) body and an empty parse result are both collapsed to
    `None` plus a generic reason string. -/
def process_run (env : Nat → FetchEvent) (bs : String → BsResult)
    (sel : SelResult) (url : String) : RunResult :=
  let fetched := fetch_content env (normalize_url url) 3 2
  match fetched.1 with
  | none => ⟨none, "Failed to fetch content", fetched.2, 0⟩
  | some h =>
    if h = "" then ⟨none, "Failed to fetch content", fetched.2, 0⟩
    else
      let parsed := ParserAgent.parse bs sel (some h) url
      if parsed.1.1 = [] then
        ⟨none, "No content could be parsed from the page", fetched.2, parsed.2⟩
      else ⟨some parsed.1.1, parsed.1.2, fetched.2, parsed.2⟩

/-- The pair `process_url` returns to its caller. -/
def process_url (env : Nat → FetchEvent) (bs : String → BsResult)
    (sel : SelResult) (url : String) : Option (List String) × String :=
  ((process_run env bs sel url).entries, (process_run env bs sel url).method)

/-! ## Concrete fixtures for claim-level evaluations -/

/-- A document whose `article` holds one link `<a href="/about">About</a>`
    (used for the link-resolution claim). -/
def docC1 : NodeList :=
  .cons (.elem "article" [] none
    (.cons (.elem "a" [] (some "/about") (.cons (.text "About") .nil)) .nil)) .nil

/-- A rendered document with one sufficiently long paragraph (used for the
    render-fallback claim). -/
def docC2sel : NodeList :=
  .cons (.elem "p" [] none
    (.cons (.text "Dynamic content rendered by the browser.") .nil)) .nil

/-- A document with no `article`, `main` or content-classed `div`, but a long
    paragraph in the body (used for the fallback-pass claim). -/
def docC7 : NodeList :=
  .cons (.elem "body" [] none
    (.cons (.elem "p" [] none
      (.cons (.text "A body paragraph that is clearly long enough.") .nil)) .nil)) .nil

/-- A document with an `article` holding a long paragraph (used for the
    result-shape claim). -/
def docC8 : NodeList :=
  .cons (.elem "article" [] none
    (.cons (.elem "p" [] none
      (.cons (.text "An article paragraph that is long enough.") .nil)) .nil)) .nil

/-! ## Whitespace-stripping lemmas

`get_text(strip=True)` concatenates stripped fragments, so its result carries
no surrounding whitespace; this section makes that precise (used for the
text-length claim). -/

/-- A character list with no leading and no trailing Python whitespace. -/
def Trimmed (l : List Char) : Prop :=
  (∀ c, l.head? = some c → isPySpace c = false) ∧
  (∀ c, l.getLast? = some c → isPySpace c = false)

theorem head_dropWhile_not (p : Char → Bool) :
    ∀ (l : List Char) (c : Char), (l.dropWhile p).head? = some c → p c = false
  | [], c => by simp
  | a :: l, c => by
    simp only [List.dropWhile_cons]
    split
    · exact head_dropWhile_not p l c
    · intro h
      simp only [List.head?_cons, Option.some.injEq] at h
      subst h
      simp_all

theorem getLast_dropWhile_eq (p : Char → Bool) :
    ∀ (l : List Char), l.dropWhile p ≠ [] →
      (l.dropWhile p).getLast? = l.getLast?
  | [] => by simp
  | a :: l => by
    simp only [List.dropWhile_cons]
    split
    · intro h
      have hl : l.dropWhile p ≠ [] := h
      rw [getLast_dropWhile_eq p l hl]
      have hne : l ≠ [] := by
        intro e
        subst e
        simp at hl
      cases l with
      | nil => exact absurd rfl hne
      | cons b t => simp [List.getLast?_cons_cons]
    · intro _
      rfl

theorem trimmed_nil : Trimmed [] :=
  ⟨by simp, by simp⟩

theorem trimmed_stripL (l : List Char) : Trimmed (stripL l) := by
  unfold stripL Trimmed
  constructor
  · intro c hc
    rw [List.head?_reverse] at hc
    have hne : ((l.dropWhile isPySpace).reverse.dropWhile isPySpace) ≠ [] := by
      intro e
      rw [e] at hc
      simp at hc
    rw [getLast_dropWhile_eq isPySpace _ hne, List.getLast?_reverse] at hc
    exact head_dropWhile_not isPySpace _ c hc
  · intro c hc
    rw [List.getLast?_reverse] at hc
    exact head_dropWhile_not isPySpace _ c hc

theorem trimmed_append {x y : List Char} (hx : Trimmed x) (hy : Trimmed y) :
    Trimmed (x ++ y) := by
  constructor
  · intro c hc
    cases x with
    | nil => exact hy.1 c (by simpa using hc)
    | cons a t => exact hx.1 c (by simpa using hc)
  · intro c hc
    rw [List.getLast?_append] at hc
    cases hy2 : y.getLast? with
    | some b =>
      rw [hy2, Option.or] at hc
      cases hc
      exact hy.2 c hy2
    | none =>
      rw [hy2, Option.or] at hc
      exact hx.2 c hc

theorem dropWhile_eq_self_of_head (p : Char → Bool) (l : List Char)
    (h : ∀ c, l.head? = some c → p c = false) : l.dropWhile p = l := by
  cases l with
  | nil => rfl
  | cons a t =>
    have := h a (by simp)
    simp [List.dropWhile_cons, this]

theorem stripL_eq_self {l : List Char} (h : Trimmed l) : stripL l = l := by
  unfold stripL
  rw [dropWhile_eq_self_of_head isPySpace l h.1]
  rw [dropWhile_eq_self_of_head isPySpace l.reverse
    (by intro c hc; rw [List.head?_reverse] at hc; exact h.2 c hc)]
  exact List.reverse_reverse l

mutual
theorem nodeText_trimmed : ∀ n : Node, Trimmed (nodeText n)
  | .text s => trimmed_stripL s.data
  | .elem _ _ _ cs => listText_trimmed cs
theorem listText_trimmed : ∀ ns : NodeList, Trimmed (listText ns)
  | .nil => trimmed_nil
  | .cons n ns => trimmed_append (nodeText_trimmed n) (listText_trimmed ns)
end

/-- `get_text(strip=True)` results carry no surrounding whitespace: stripping
    them again is the identity. -/
theorem pyStrip_nodeText (n : Node) : pyStrip ⟨nodeText n⟩ = ⟨nodeText n⟩ :=
  congrArg String.mk (stripL_eq_self (nodeText_trimmed n))

/-! ## URL-scheme lemmas -/

theorem listStartsWith_append (p t : List Char) :
    listStartsWith (p ++ t) p = true := by
  induction p with
  | nil => cases t <;> rfl
  | cons c cs ih => simp [listStartsWith, ih]

theorem eq_append_of_listStartsWith :
    ∀ (p l : List Char), listStartsWith l p = true → ∃ t, l = p ++ t
  | [], l, _ => ⟨l, rfl⟩
  | c :: cs, [], h => by simp [listStartsWith] at h
  | c :: cs, a :: l, h => by
    simp only [listStartsWith, Bool.and_eq_true, beq_iff_eq] at h
    obtain ⟨t, ht⟩ := eq_append_of_listStartsWith cs l h.2
    exact ⟨t, by rw [List.cons_append, h.1, ht]⟩

/-- Scheme extraction either falls back to the caller's default or finds an
    explicit nonempty scheme, in which case the default is irrelevant. -/
theorem splitSchemeL_cases (l d : List Char) :
    splitSchemeL l d = (d, l) ∨
      ∃ pre post, pre ≠ [] ∧ (∀ d2, splitSchemeL l d2 = (pre.map Char.toLower, post)) := by
  cases h : splitAtFirst ':' l with
  | none => exact Or.inl (by simp only [splitSchemeL, h])
  | some ab =>
    obtain ⟨pre, post⟩ := ab
    cases pre with
    | nil => exact Or.inl (by simp only [splitSchemeL, h])
    | cons c cs =>
      by_cases hc : (c.isAlpha && (c :: cs).all schemeChar) = true
      · refine Or.inr ⟨c :: cs, post, by simp, fun d2 => ?_⟩
        simp only [splitSchemeL, h]
        rw [if_pos hc]
      · refine Or.inl ?_
        simp only [splitSchemeL, h]
        rw [if_neg hc]

theorem urlsplitL_scheme (l d : List Char) :
    (urlsplitL l d).scheme = (splitSchemeL l d).1 := rfl

/-- The scheme extracted from `"http:" ++ x` is `"http"`, for any `x`. -/
theorem splitSchemeL_http (x d : List Char) :
    splitSchemeL ('h' :: 't' :: 't' :: 'p' :: ':' :: x) d =
      (['h', 't', 't', 'p'], x) := rfl

/-- The scheme extracted from `"https:" ++ x` is `"https"`, for any `x`. -/
theorem splitSchemeL_https (x d : List Char) :
    splitSchemeL ('h' :: 't' :: 't' :: 'p' :: 's' :: ':' :: x) d =
      (['h', 't', 't', 'p', 's'], x) := rfl

theorem exists_colon_tail1 (S u : List Char) :
    ∃ x, S ++ ':' :: u = S ++ ':' :: x :=
  ⟨u, rfl⟩

theorem exists_colon_tail2 (S u v : List Char) :
    ∃ x, (S ++ ':' :: u) ++ v = S ++ ':' :: x :=
  ⟨u ++ v, by simp [List.append_assoc]⟩

theorem exists_colon_tail3 (S u v w : List Char) :
    ∃ x, ((S ++ ':' :: u) ++ v) ++ w = S ++ ':' :: x :=
  ⟨u ++ v ++ w, by simp [List.append_assoc]⟩

/-- `urlunsplit` of a record with a scheme starts with `scheme:`. -/
theorem urlunsplitL_scheme (p : SplitUrl) (h : p.scheme ≠ []) :
    ∃ x, urlunsplitL p = p.scheme ++ ':' :: x := by
  simp only [urlunsplitL, if_pos h]
  split
  · split
    · exact exists_colon_tail3 _ _ _ _
    · exact exists_colon_tail2 _ _ _
  · split
    · exact exists_colon_tail2 _ _ _
    · exact exists_colon_tail1 _ _

theorem scheme_after_unsplit (P : SplitUrl) (S : List Char)
    (hPS : P.scheme = S) (hSne : S ≠ [])
    (hre : ∀ x, (urlsplitL (S ++ ':' :: x) []).scheme = S) :
    (urlsplitL (urlunsplitL P) []).scheme ≠ [] := by
  obtain ⟨x, hx⟩ := urlunsplitL_scheme P (by rw [hPS]; exact hSne)
  rw [hx, hPS, hre]
  exact hSne

/-- Core of the link-resolution claim: when the base URL parses with a scheme
    that supports relative resolution, `urljoin` always produces a URL with a
    scheme. -/
theorem urljoinL_scheme_ne_nil (base href S : List Char)
    (hb : base ≠ []) (hh : href ≠ [])
    (hbs : (urlsplitL base []).scheme = S)
    (hSne : S ≠ [])
    (hrel : schemeMem S usesRelative = true)
    (hre : ∀ x, (urlsplitL (S ++ ':' :: x) []).scheme = S) :
    (urlsplitL (urljoinL base href) []).scheme ≠ [] := by
  simp only [urljoinL, if_neg hb, if_neg hh, hbs]
  by_cases hg : (urlsplitL href S).scheme = S
  · rw [if_neg (by simp [hg, hrel])]
    split
    · exact scheme_after_unsplit _ S hg hSne hre
    · split
      · exact scheme_after_unsplit _ S hg hSne hre
      · exact scheme_after_unsplit _ S hg hSne hre
  · rw [if_pos (by simp [hg])]
    rcases splitSchemeL_cases href S with hdef | ⟨pre, post, hpre, hexp⟩
    · exact absurd (by rw [urlsplitL_scheme, hdef]) hg
    · rw [urlsplitL_scheme, hexp []]
      simp [hpre]

theorem data_ne_nil_of_ne_empty {s : String} (h : s ≠ "") : s.data ≠ [] := by
  intro e
  apply h
  cases s with
  | mk d =>
    cases e
    rfl

/-- When the parser's base URL starts with `http://` or `https://`, every
    `urljoin` of a nonempty href against it is absolute. -/
theorem urljoin_isAbsolute (base href : String)
    (hb : (pyStartsWith base "http://" || pyStartsWith base "https://") = true)
    (hh : href ≠ "") : isAbsolute (urljoin base href) = true := by
  have hhd : href.data ≠ [] := data_ne_nil_of_ne_empty hh
  simp only [isAbsolute, urljoin, decide_eq_true_eq]
  rcases Bool.or_eq_true _ _ |>.mp hb with h1 | h1
  · obtain ⟨t, ht⟩ := eq_append_of_listStartsWith _ _ h1
    rw [ht]
    exact urljoinL_scheme_ne_nil _ _ ['h', 't', 't', 'p'] (by simp) hhd
      (by rw [urlsplitL_scheme]; exact congrArg Prod.fst (splitSchemeL_http _ _))
      (by simp) (by decide) (fun x => rfl)
  · obtain ⟨t, ht⟩ := eq_append_of_listStartsWith _ _ h1
    rw [ht]
    exact urljoinL_scheme_ne_nil _ _ ['h', 't', 't', 'p', 's'] (by simp) hhd
      (by rw [urlsplitL_scheme]; exact congrArg Prod.fst (splitSchemeL_https _ _))
      (by simp) (by decide) (fun x => rfl)

/-! ## Fetch-loop lemmas -/

/-- Every request in the fetch trace goes to the crawler's URL, and its
    attempt index lies inside the window of executed iterations. -/
theorem fetchGo_mem_request (env : Nat → FetchEvent) (url : String) (delay : Nat) :
    ∀ (r a : Nat) (u : String) (j : Nat) (v : Bool),
      Action.request u j v ∈ (fetchGo env url delay a r).2 →
        u = url ∧ a ≤ j ∧ j < a + r
  | 0, a, u, j, v => by simp [fetchGo]
  | r + 1, a, u, j, v => by
    have ih := fetchGo_mem_request env url delay r (a + 1) u j v
    intro h
    cases henv : env a with
    | ok body =>
      simp only [fetchGo, henv] at h
      simp at h
      obtain ⟨h1, h2, h3⟩ := h
      exact ⟨h1, by omega, by omega⟩
    | forbidden =>
      simp only [fetchGo, henv] at h
      simp at h
      obtain ⟨h1, h2, h3⟩ := h
      exact ⟨h1, by omega, by omega⟩
    | fatal msg =>
      simp only [fetchGo, henv] at h
      simp at h
      obtain ⟨h1, h2, h3⟩ := h
      exact ⟨h1, by omega, by omega⟩
    | otherStatus code =>
      simp only [fetchGo, henv] at h
      simp at h
      rcases h with ⟨h1, h2, h3⟩ | h
      · exact ⟨h1, by omega, by omega⟩
      · obtain ⟨h1, h2, h3⟩ := ih h
        exact ⟨h1, by omega, by omega⟩
    | reqError msg =>
      simp only [fetchGo, henv] at h
      simp at h
      rcases h with ⟨h1, h2, h3⟩ | h
      · exact ⟨h1, by omega, by omega⟩
      · obtain ⟨h1, h2, h3⟩ := ih h
        exact ⟨h1, by omega, by omega⟩
    | sslError second =>
      cases second with
      | some body =>
        simp only [fetchGo, henv] at h
        simp at h
        rcases h with ⟨h1, h2, h3⟩ | ⟨h1, h2, h3⟩
        · exact ⟨h1, by omega, by omega⟩
        · exact ⟨h1, by omega, by omega⟩
      | none =>
        simp only [fetchGo, henv] at h
        simp at h
        rcases h with ⟨h1, h2, h3⟩ | ⟨h1, h2, h3⟩ | h
        · exact ⟨h1, by omega, by omega⟩
        · exact ⟨h1, by omega, by omega⟩
        · obtain ⟨h1, h2, h3⟩ := ih h
          exact ⟨h1, by omega, by omega⟩
    | rateLimited retryAfter =>
      cases retryAfter with
      | none =>
        simp only [fetchGo, henv] at h
        rw [if_neg (not_lt.mpr (by positivity))] at h
        simp at h
        rcases h with ⟨h1, h2, h3⟩ | h
        · exact ⟨h1, by omega, by omega⟩
        · obtain ⟨h1, h2, h3⟩ := ih h
          exact ⟨h1, by omega, by omega⟩
      | some s =>
        cases hpi : pyInt s with
        | none =>
          simp only [fetchGo, henv, hpi] at h
          simp at h
          obtain ⟨h1, h2, h3⟩ := h
          exact ⟨h1, by omega, by omega⟩
        | some n =>
          by_cases hn : n < 0
          · simp only [fetchGo, henv, hpi, if_pos hn] at h
            simp at h
            obtain ⟨h1, h2, h3⟩ := h
            exact ⟨h1, by omega, by omega⟩
          · simp only [fetchGo, henv, hpi, if_neg hn] at h
            simp at h
            rcases h with ⟨h1, h2, h3⟩ | h
            · exact ⟨h1, by omega, by omega⟩
            · obtain ⟨h1, h2, h3⟩ := ih h
              exact ⟨h1, by omega, by omega⟩

theorem countReq_sleep (s : Int) (l : List Action) :
    countReq (Action.sleep s :: l) = countReq l := rfl

theorem countReq_nil : countReq [] = 0 := rfl

theorem countReq_request_true (u : String) (a : Nat) (l : List Action) :
    countReq (Action.request u a true :: l) = countReq l + 1 := rfl

theorem countReq_request_false (u : String) (a : Nat) (l : List Action) :
    countReq (Action.request u a false :: l) = countReq l := rfl

/-- Once some attempt observes HTTP 403, no later attempt is started: every
    request in the trace has index at most `k`, and if the 403 attempt `k` was
    actually executed the loop's result is `None`. -/
theorem fetchGo_forbidden (env : Nat → FetchEvent) (url : String) (delay : Nat)
    (k : Nat) (hk : env k = .forbidden) :
    ∀ (r a : Nat), a ≤ k →
      (∀ (u : String) (j : Nat) (v : Bool),
          Action.request u j v ∈ (fetchGo env url delay a r).2 → j ≤ k) ∧
        (∀ (u : String) (v : Bool),
          Action.request u k v ∈ (fetchGo env url delay a r).2 →
            (fetchGo env url delay a r).1 = none)
  | 0, a, _ => by simp [fetchGo]
  | r + 1, a, ha => by
    have ih := fun h => fetchGo_forbidden env url delay k hk r (a + 1) h
    cases henv : env a with
    | forbidden =>
      refine ⟨fun u j v h => ?_, fun u v h => ?_⟩
      · simp only [fetchGo, henv] at h
        simp at h
        omega
      · simp only [fetchGo, henv]
    | ok body =>
      have hak : a ≠ k := by
        intro e
        rw [e, hk] at henv
        exact FetchEvent.noConfusion henv
      refine ⟨fun u j v h => ?_, fun u v h => ?_⟩
      · simp only [fetchGo, henv] at h
        simp at h
        omega
      · simp only [fetchGo, henv] at h
        simp at h
        exact absurd h.2.1 (by omega)
    | fatal msg =>
      refine ⟨fun u j v h => ?_, fun u v h => ?_⟩
      · simp only [fetchGo, henv] at h
        simp at h
        omega
      · simp only [fetchGo, henv]
    | otherStatus code =>
      have hak : a ≠ k := by
        intro e
        rw [e, hk] at henv
        exact FetchEvent.noConfusion henv
      refine ⟨fun u j v h => ?_, fun u v h => ?_⟩
      · simp only [fetchGo, henv] at h
        simp at h
        rcases h with ⟨h1, h2, h3⟩ | h
        · omega
        · have := (ih (by omega)).1 u j v h
          omega
      · simp only [fetchGo, henv] at h ⊢
        simp at h ⊢
        rcases h with ⟨h1, h2, h3⟩ | h
        · exact absurd h2 (by omega)
        · exact (ih (by omega)).2 u v h
    | reqError msg =>
      have hak : a ≠ k := by
        intro e
        rw [e, hk] at henv
        exact FetchEvent.noConfusion henv
      refine ⟨fun u j v h => ?_, fun u v h => ?_⟩
      · simp only [fetchGo, henv] at h
        simp at h
        rcases h with ⟨h1, h2, h3⟩ | h
        · omega
        · have := (ih (by omega)).1 u j v h
          omega
      · simp only [fetchGo, henv] at h ⊢
        simp at h ⊢
        rcases h with ⟨h1, h2, h3⟩ | h
        · exact absurd h2 (by omega)
        · exact (ih (by omega)).2 u v h
    | sslError second =>
      have hak : a ≠ k := by
        intro e
        rw [e, hk] at henv
        exact FetchEvent.noConfusion henv
      cases second with
      | some body =>
        refine ⟨fun u j v h => ?_, fun u v h => ?_⟩
        · simp only [fetchGo, henv] at h
          simp at h
          rcases h with ⟨h1, h2, h3⟩ | ⟨h1, h2, h3⟩ <;> omega
        · simp only [fetchGo, henv] at h
          simp at h
          rcases h with ⟨h1, h2, h3⟩ | ⟨h1, h2, h3⟩ <;> exact absurd h2 (by omega)
      | none =>
        refine ⟨fun u j v h => ?_, fun u v h => ?_⟩
        · simp only [fetchGo, henv] at h
          simp at h
          rcases h with ⟨h1, h2, h3⟩ | ⟨h1, h2, h3⟩ | h
          · omega
          · omega
          · have := (ih (by omega)).1 u j v h
            omega
        · simp only [fetchGo, henv] at h ⊢
          simp at h ⊢
          rcases h with ⟨h1, h2, h3⟩ | ⟨h1, h2, h3⟩ | h
          · exact absurd h2 (by omega)
          · exact absurd h2 (by omega)
          · exact (ih (by omega)).2 u v h
    | rateLimited retryAfter =>
      have hak : a ≠ k := by
        intro e
        rw [e, hk] at henv
        exact FetchEvent.noConfusion henv
      cases retryAfter with
      | none =>
        refine ⟨fun u j v h => ?_, fun u v h => ?_⟩
        · simp only [fetchGo, henv] at h
          rw [if_neg (not_lt.mpr (by positivity))] at h
          simp at h
          rcases h with ⟨h1, h2, h3⟩ | h
          · omega
          · have := (ih (by omega)).1 u j v h
            omega
        · simp only [fetchGo, henv] at h ⊢
          rw [if_neg (not_lt.mpr (by positivity))] at h ⊢
          simp at h ⊢
          rcases h with ⟨h1, h2, h3⟩ | h
          · exact absurd h2 (by omega)
          · exact (ih (by omega)).2 u v h
      | some s =>
        cases hpi : pyInt s with
        | none =>
          refine ⟨fun u j v h => ?_, fun u v h => ?_⟩
          · simp only [fetchGo, henv, hpi] at h
            simp at h
            omega
          · simp only [fetchGo, henv, hpi]
        | some n =>
          by_cases hn : n < 0
          · refine ⟨fun u j v h => ?_, fun u v h => ?_⟩
            · simp only [fetchGo, henv, hpi, if_pos hn] at h
              simp at h
              omega
            · simp only [fetchGo, henv, hpi, if_pos hn]
          · refine ⟨fun u j v h => ?_, fun u v h => ?_⟩
            · simp only [fetchGo, henv, hpi, if_neg hn] at h
              simp at h
              rcases h with ⟨h1, h2, h3⟩ | h
              · omega
              · have := (ih (by omega)).1 u j v h
                omega
            · simp only [fetchGo, henv, hpi, if_neg hn] at h ⊢
              simp at h ⊢
              rcases h with ⟨h1, h2, h3⟩ | h
              · exact absurd h2 (by omega)
              · exact (ih (by omega)).2 u v h

/-- When every iteration inside the window hits a network-level
    `RequestException`, the loop exhausts all its attempts (one primary
    request each) and returns `None`. -/
theorem fetchGo_all_reqError (env : Nat → FetchEvent) (url : String) (delay : Nat) :
    ∀ (r a : Nat), (∀ j, a ≤ j → j < a + r → ∃ m, env j = .reqError m) →
      (fetchGo env url delay a r).1 = none ∧
        countReq (fetchGo env url delay a r).2 = r
  | 0, a, _ => by simp [fetchGo, countReq]
  | r + 1, a, hall => by
    obtain ⟨m, hm⟩ := hall a (Nat.le_refl a) (by omega)
    have ih := fetchGo_all_reqError env url delay r (a + 1)
      (fun j h1 h2 => hall j (by omega) (by omega))
    simp only [fetchGo, hm]
    refine ⟨ih.1, ?_⟩
    simp only [List.cons_append, List.nil_append, countReq_sleep,
      countReq_request_true, countReq_request_false, countReq_nil]
    rw [ih.2]

/-- The loop never makes more primary requests than it has attempts. -/
theorem fetchGo_countReq_le (env : Nat → FetchEvent) (url : String) (delay : Nat) :
    ∀ (r a : Nat), countReq (fetchGo env url delay a r).2 ≤ r
  | 0, a => by simp [fetchGo, countReq]
  | r + 1, a => by
    have ih := fetchGo_countReq_le env url delay r (a + 1)
    cases henv : env a with
    | ok body =>
      simp [fetchGo, henv, countReq_sleep, countReq_request_true, countReq_nil]
    | forbidden =>
      simp [fetchGo, henv, countReq_sleep, countReq_request_true, countReq_nil]
    | fatal msg =>
      simp [fetchGo, henv, countReq_sleep, countReq_request_true, countReq_nil]
    | otherStatus code =>
      simp only [fetchGo, henv, List.cons_append, List.nil_append,
        countReq_sleep, countReq_request_true, countReq_nil]
      omega
    | reqError msg =>
      simp only [fetchGo, henv, List.cons_append, List.nil_append,
        countReq_sleep, countReq_request_true, countReq_nil]
      omega
    | sslError second =>
      cases second with
      | some body =>
        simp [fetchGo, henv, countReq_sleep, countReq_request_true,
          countReq_request_false, countReq_nil]
      | none =>
        simp only [fetchGo, henv, List.cons_append, List.nil_append,
          countReq_sleep, countReq_request_true, countReq_request_false,
          countReq_nil]
        omega
    | rateLimited retryAfter =>
      cases retryAfter with
      | none =>
        simp only [fetchGo, henv]
        rw [if_neg (not_lt.mpr (by positivity))]
        simp only [List.cons_append, List.nil_append, countReq_sleep,
          countReq_request_true, countReq_nil]
        omega
      | some s =>
        cases hpi : pyInt s with
        | none =>
          simp [fetchGo, henv, hpi, countReq_sleep, countReq_request_true,
            countReq_nil]
        | some n =>
          by_cases hn : n < 0
          · simp [fetchGo, henv, hpi, if_pos hn, countReq_sleep,
              countReq_request_true, countReq_nil]
          · simp only [fetchGo, henv, hpi, if_neg hn, List.cons_append,
              List.nil_append, countReq_sleep, countReq_request_true,
              countReq_nil]
            omega

/-- One-step equation: HTTP 429 with no `Retry-After` header sleeps the
    computed default `delay * (attempt + 1)` and continues with one fewer
    remaining attempt. -/
theorem fetchGo_rateLimited_default (env : Nat → FetchEvent) (url : String)
    (delay a r : Nat) (h : env a = .rateLimited none) :
    fetchGo env url delay a (r + 1) =
      ((fetchGo env url delay (a + 1) r).1,
        Action.sleep delay :: Action.request url a true ::
          Action.sleep ((delay * (a + 1) : Nat) : Int) ::
            (fetchGo env url delay (a + 1) r).2) := by
  simp only [fetchGo, h]
  rw [if_neg (not_lt.mpr (by positivity))]
  rfl

/-- One-step equation: HTTP 429 with a parseable nonnegative `Retry-After`
    value sleeps exactly that value and continues with one fewer remaining
    attempt. -/
theorem fetchGo_rateLimited_header (env : Nat → FetchEvent) (url : String)
    (delay a r : Nat) (s : String) (n : Int) (h : env a = .rateLimited (some s))
    (hp : pyInt s = some n) (hn : 0 ≤ n) :
    fetchGo env url delay a (r + 1) =
      ((fetchGo env url delay (a + 1) r).1,
        Action.sleep delay :: Action.request url a true ::
          Action.sleep n :: (fetchGo env url delay (a + 1) r).2) := by
  simp only [fetchGo, h, hp]
  rw [if_neg (not_lt.mpr hn)]
  rfl

/-! ## Extraction and orchestration lemmas -/

/-- A link entry can only come from an `a` element with a truthy `href`, and
    its URL is the `urljoin` of the base with that href. -/
theorem entryOf_link (base : String) (n : Node) (label u : String)
    (h : entryOf base n = some (.linkE label u)) :
    ∃ href, href ≠ "" ∧ u = urljoin base href := by
  simp only [entryOf] at h
  split at h
  · rename_i cls hr ch
    split at h
    · rename_i hne
      simp at h
      exact ⟨hr, hne, h.2.symm⟩
    · simp at h
  · simp at h
  · split at h
    · simp at h
    · simp at h

/-- A text entry is always the stripped text of its node and passed the
    20-character filter. -/
theorem entryOf_text (base : String) (n : Node) (t : String)
    (h : entryOf base n = some (.textE t)) :
    t = ⟨nodeText n⟩ ∧ 20 < t.length := by
  simp only [entryOf] at h
  split at h
  · split at h
    · simp at h
    · simp at h
  · simp at h
  · split at h
    · rename_i hlen
      simp at h
      exact ⟨h.symm, h ▸ hlen⟩
    · simp at h

/-- `parse` pairs a nonempty entry list only with one of the two success
    labels. -/
theorem parse_nonempty_method (bs : String → BsResult) (sel : SelResult)
    (html : Option String) (url : String)
    (h : (ParserAgent.parse bs sel html url).1.1 ≠ []) :
    (ParserAgent.parse bs sel html url).1.2 = "Parsed with BeautifulSoup" ∨
      (ParserAgent.parse bs sel html url).1.2 = "Parsed with Selenium" := by
  cases html with
  | none => simp [ParserAgent.parse] at h
  | some s =>
    by_cases hs : s = ""
    · simp [ParserAgent.parse, hs] at h
    · simp only [ParserAgent.parse, if_neg hs] at h ⊢
      cases hbs : bs s with
      | raise msg => simp [hbs] at h
      | ok doc =>
        simp only [hbs] at h ⊢
        by_cases hp : (entriesOf (contentOf doc) url).map renderEntry = []
        · simp only [if_pos hp] at h ⊢
          cases sel with
          | ok d2 => exact Or.inr rfl
          | raise m => simp [parse_with_selenium] at h
        · simp only [if_neg hp]
          exact Or.inl trivial

/-- The recorded actions of a run are exactly the fetch trace. -/
theorem process_run_actions (env : Nat → FetchEvent) (bs : String → BsResult)
    (sel : SelResult) (url : String) :
    (process_run env bs sel url).actions =
      (fetch_content env (normalize_url url) 3 2).2 := by
  simp only [process_run]
  cases (fetch_content env (normalize_url url) 3 2).1 with
  | none => rfl
  | some h =>
    by_cases hs : h = ""
    · simp [hs]
    · simp only [if_neg hs]
      split <;> rfl

/-- A failed fetch makes the run return absence with the generic fetch-failure
    reason. -/
theorem process_run_fetch_none (env : Nat → FetchEvent) (bs : String → BsResult)
    (sel : SelResult) (url : String)
    (hf : (fetch_content env (normalize_url url) 3 2).1 = none) :
    (process_run env bs sel url).entries = none ∧
      (process_run env bs sel url).method = "Failed to fetch content" := by
  simp [process_run, hf]

/-! ## Claim theorems -/

/-- C10: a fetch attempt that receives HTTP 429 with a `Retry-After` header
    value that `int()` cannot parse aborts the whole retry loop immediately
    (the `ValueError` is caught by the outer `except Exception`, which returns
    `None`): no fallback to the computed default delay, no further attempt. -/
theorem c10_unparseable_retry_after_aborts (env : Nat → FetchEvent)
    (url : String) (delay a r : Nat) (s : String)
    (h : env a = FetchEvent.rateLimited (some s)) (hp : pyInt s = none) :
    fetchGo env url delay a (r + 1) =
      (none, [Action.sleep delay, Action.request url a true]) := by
  simp only [fetchGo, h, hp]

theorem c10_unparseable_retry_after_aborts_witness :
    fetchGo (fun _ => FetchEvent.rateLimited (some "later")) "https://x.org" 2 0 3 =
      (none, [Action.sleep 2, Action.request "https://x.org" 0 true]) :=
  c10_unparseable_retry_after_aborts (fun _ => FetchEvent.rateLimited (some "later"))
    "https://x.org" 2 0 2 "later" rfl rfl

/-- C5 (amended): on HTTP 429 the fetcher sleeps exactly the server-suggested
    wait when the `Retry-After` header parses as a nonnegative integer (the
    computed default `delay * (attempt + 1)` when the header is absent) before
    the next attempt, the rate-limited attempt consumes one of the remaining
    attempt slots, and the loop continues; in every case at most `max_retries`
    primary requests are made.  The original claim fails when the header is
    present but not a parseable integer: then the loop aborts instead of
    continuing (see the counterexample and C10). -/
theorem c5_rate_limited_sleeps (env : Nat → FetchEvent) (url : String)
    (delay a r : Nat) :
    (env a = FetchEvent.rateLimited none →
      fetchGo env url delay a (r + 1) =
        ((fetchGo env url delay (a + 1) r).1,
          Action.sleep delay :: Action.request url a true ::
            Action.sleep ((delay * (a + 1) : Nat) : Int) ::
              (fetchGo env url delay (a + 1) r).2)) ∧
    (∀ s n, env a = FetchEvent.rateLimited (some s) → pyInt s = some n → 0 ≤ n →
      fetchGo env url delay a (r + 1) =
        ((fetchGo env url delay (a + 1) r).1,
          Action.sleep delay :: Action.request url a true ::
            Action.sleep n :: (fetchGo env url delay (a + 1) r).2)) ∧
    (∀ maxRetries, countReq (fetch_content env url maxRetries delay).2 ≤ maxRetries) :=
  ⟨fetchGo_rateLimited_default env url delay a r,
   fun s n h hp hn => fetchGo_rateLimited_header env url delay a r s n h hp hn,
   fun m => fetchGo_countReq_le env url delay m 0⟩

theorem c5_rate_limited_sleeps_witness :
    fetchGo (fun _ => FetchEvent.rateLimited (some "7")) "https://e.com" 2 0 3 =
      ((fetchGo (fun _ => FetchEvent.rateLimited (some "7")) "https://e.com" 2 1 2).1,
        Action.sleep 2 :: Action.request "https://e.com" 0 true ::
          Action.sleep 7 ::
            (fetchGo (fun _ => FetchEvent.rateLimited (some "7")) "https://e.com" 2 1 2).2) :=
  (c5_rate_limited_sleeps (fun _ => FetchEvent.rateLimited (some "7"))
      "https://e.com" 2 0 2).2.1 "7" 7 rfl rfl (by decide)

/-- C5 counterexample: with `Retry-After: soon` (present but not a parseable
    integer) the very first 429 attempt ends the run — no sleep is performed
    after the 429 and no further attempt is started, although two of the three
    attempt slots were still unused.  This refutes the claim's universal
    "the rate-limited attempt … continues rather than aborting". -/
theorem c5_rate_limited_sleeps_counterexample :
    fetch_content (fun _ => FetchEvent.rateLimited (some "soon")) "https://e.com" 3 2 =
      (none, [Action.sleep 2, Action.request "https://e.com" 0 true]) := rfl

/-- C3 (amended): once some attempt observes HTTP 403 no further request is
    started (every request in the trace has attempt index at most that of the
    403), and the run returns absence whose reason is the generic string
    `"Failed to fetch content"` — not the logged `"Access forbidden - site may
    have anti-bot protection"` message, which never reaches the result. -/
theorem c3_forbidden_aborts (env : Nat → FetchEvent) (bs : String → BsResult)
    (sel : SelResult) (url : String) (k : Nat)
    (hk : env k = FetchEvent.forbidden) :
    (∀ u j v, Action.request u j v ∈ (process_run env bs sel url).actions →
        j ≤ k) ∧
    (∀ v, Action.request (normalize_url url) k v ∈
          (process_run env bs sel url).actions →
        (process_run env bs sel url).entries = none ∧
        (process_run env bs sel url).method = "Failed to fetch content") := by
  have hfb := fetchGo_forbidden env (normalize_url url) 2 k hk 3 0 (Nat.zero_le k)
  constructor
  · intro u j v h
    rw [process_run_actions] at h
    exact hfb.1 u j v h
  · intro v h
    rw [process_run_actions] at h
    exact process_run_fetch_none env bs sel url (hfb.2 (normalize_url url) v h)

theorem c3_forbidden_aborts_witness :
    (process_run (fun _ => FetchEvent.forbidden) (fun _ => BsResult.raise "")
        (SelResult.raise "") "https://e.com").entries = none ∧
      (process_run (fun _ => FetchEvent.forbidden) (fun _ => BsResult.raise "")
        (SelResult.raise "") "https://e.com").method = "Failed to fetch content" :=
  (c3_forbidden_aborts (fun _ => FetchEvent.forbidden) (fun _ => BsResult.raise "")
      (SelResult.raise "") "https://e.com" 0 rfl).2 true (by decide)

/-- C3 counterexample: a 403 on the first attempt does stop the loop, but the
    final result of `process_url` carries the reason `"Failed to fetch
    content"`, not the claimed `"Access forbidden..."` label (that text is only
    logged). -/
theorem c3_forbidden_aborts_counterexample :
    process_run (fun _ => FetchEvent.forbidden) (fun _ => BsResult.raise "")
        (SelResult.raise "") "https://site.com" =
      ⟨none, "Failed to fetch content",
        [Action.sleep 2, Action.request "https://site.com" 0 true], 0⟩ ∧
      "Failed to fetch content" ≠
        "Access forbidden - site may have anti-bot protection" :=
  ⟨rfl, by decide⟩

/-- C4 (amended): when all three fetch attempts fail with network-level
    request exceptions, all `max_retries = 3` attempt slots are consumed and
    the run returns absence with reason `"Failed to fetch content"` — not the
    claimed `"Failed to fetch content after <max_retries> attempts"` string,
    which is only logged inside `fetch_content` and never returned. -/
theorem c4_retries_exhausted (env : Nat → FetchEvent) (bs : String → BsResult)
    (sel : SelResult) (url : String)
    (hall : ∀ j, j < 3 → ∃ m, env j = FetchEvent.reqError m) :
    (process_run env bs sel url).entries = none ∧
      (process_run env bs sel url).method = "Failed to fetch content" ∧
      countReq (process_run env bs sel url).actions = 3 := by
  have hf := fetchGo_all_reqError env (normalize_url url) 2 3 0
    (fun j h1 h2 => hall j (by omega))
  have hn := process_run_fetch_none env bs sel url hf.1
  refine ⟨hn.1, hn.2, ?_⟩
  rw [process_run_actions]
  exact hf.2

theorem c4_retries_exhausted_witness :
    (process_run (fun _ => FetchEvent.reqError "timeout") (fun _ => BsResult.raise "")
        (SelResult.raise "") "https://e.org").entries = none ∧
      (process_run (fun _ => FetchEvent.reqError "timeout") (fun _ => BsResult.raise "")
        (SelResult.raise "") "https://e.org").method = "Failed to fetch content" ∧
      countReq (process_run (fun _ => FetchEvent.reqError "timeout")
        (fun _ => BsResult.raise "") (SelResult.raise "") "https://e.org").actions = 3 :=
  c4_retries_exhausted (fun _ => FetchEvent.reqError "timeout")
    (fun _ => BsResult.raise "") (SelResult.raise "") "https://e.org"
    (fun _ _ => ⟨"timeout", rfl⟩)

/-- C4 counterexample: with every attempt timing out, the reason returned by
    the run is the generic `"Failed to fetch content"`, not the claimed
    `"Failed to fetch content after 3 attempts"`. -/
theorem c4_retries_exhausted_counterexample :
    (process_run (fun _ => FetchEvent.reqError "timed out") (fun _ => BsResult.raise "")
        (SelResult.raise "") "https://news.example").method = "Failed to fetch content" ∧
      (process_run (fun _ => FetchEvent.reqError "timed out") (fun _ => BsResult.raise "")
        (SelResult.raise "") "https://news.example").method ≠
        "Failed to fetch content after 3 attempts" :=
  ⟨rfl, by decide⟩

/-- C1 (amended): when the base URL the parser resolves against carries an
    explicit `http://` or `https://` scheme, every link entry produced by the
    filtering loop (shared by both extraction strategies) has an absolute
    resolved URL.  The original claim also covered inputs supplied without a
    scheme; it fails for those because `process_url` constructs the parser
    with the raw input URL (`main.py:223`), not the normalized one — see the
    counterexample. -/
theorem c1_resolved_links_absolute (content : List Node) (base : String)
    (hb : (pyStartsWith base "http://" || pyStartsWith base "https://") = true) :
    ∀ label u, Entry.linkE label u ∈ entriesOf content base →
      isAbsolute u = true := by
  intro label u hmem
  obtain ⟨n, _, hf⟩ := List.mem_filterMap.mp hmem
  obtain ⟨href, hne, hu⟩ := entryOf_link base n label u hf
  rw [hu]
  exact urljoin_isAbsolute base href hb hne

theorem c1_resolved_links_absolute_witness :
    Entry.linkE "About" "https://example.com/about" ∈
        entriesOf (contentOf docC1) "https://example.com/x" ∧
      isAbsolute "https://example.com/about" = true :=
  ⟨by decide,
   c1_resolved_links_absolute (contentOf docC1) "https://example.com/x"
     (by decide) "About" "https://example.com/about" (by decide)⟩

/-- C1 counterexample: for the schemeless input `"example.com"` the fetch uses
    the normalized `https://example.com`, but the parser resolves `"/about"`
    against the raw `"example.com"`, emitting the non-absolute resolved URL
    `"/about"` in the final result of `process`. -/
theorem c1_resolved_links_absolute_counterexample :
    entriesOf (contentOf docC1) "example.com" = [Entry.linkE "About" "/about"] ∧
      isAbsolute "/about" = false ∧
      (process_run (fun _ => FetchEvent.ok "<html>") (fun _ => BsResult.ok docC1)
          (SelResult.raise "") "example.com").entries =
        some ["Link: About - /about"] :=
  ⟨rfl, by decide, rfl⟩

/-- C6: every text entry produced by the filtering loop (the same loop serves
    the static and the rendered strategy) has trimmed length strictly greater
    than 20 characters; no shorter text entry can appear in any result. -/
theorem c6_text_entries_long (content : List Node) (base : String) :
    ∀ t, Entry.textE t ∈ entriesOf content base →
      20 < (pyStrip t).length ∧ 20 < t.length := by
  intro t hmem
  obtain ⟨n, _, hf⟩ := List.mem_filterMap.mp hmem
  obtain ⟨ht, hlen⟩ := entryOf_text base n t hf
  refine ⟨?_, hlen⟩
  rw [ht, pyStrip_nodeText]
  exact ht ▸ hlen

theorem c6_text_entries_long_witness :
    20 < (pyStrip "This paragraph certainly exceeds twenty characters.").length ∧
      20 < ("This paragraph certainly exceeds twenty characters." : String).length :=
  c6_text_entries_long
    [Node.elem "p" [] none (NodeList.cons
      (Node.text "This paragraph certainly exceeds twenty characters.") NodeList.nil)]
    "https://e.com" "This paragraph certainly exceeds twenty characters." (by decide)

/-- C7: the whole-document fallback pass runs exactly when the
    article/main/content-class passes collected zero candidates; entries
    produced by the fallback are returned with the static strategy label
    `"Parsed with BeautifulSoup"`; and when pass 1–3 candidates exist the
    fallback does not run even if every candidate is filtered out — the parser
    then proceeds to the Selenium fallback instead. -/
theorem c7_fallback_pass (doc : NodeList) (bs : String → BsResult)
    (sel : SelResult) (h : String) (url : String)
    (hs : h ≠ "") (hbs : bs h = BsResult.ok doc) :
    (pass123 doc = [] →
      contentOf doc = findAllTags doc ∧
        ((entriesOf (findAllTags doc) url).map renderEntry ≠ [] →
          ParserAgent.parse bs sel (some h) url =
            (((entriesOf (findAllTags doc) url).map renderEntry,
              "Parsed with BeautifulSoup"), 0))) ∧
    (pass123 doc ≠ [] →
      contentOf doc = pass123 doc ∧
        ((entriesOf (pass123 doc) url).map renderEntry = [] →
          (ParserAgent.parse bs sel (some h) url).2 = 1)) := by
  constructor
  · intro hp
    have hcontent : contentOf doc = findAllTags doc := by
      simp [contentOf, hp]
    refine ⟨hcontent, fun hne => ?_⟩
    simp only [ParserAgent.parse, if_neg hs, hbs, hcontent]
    rw [if_neg hne]
  · intro hp
    have hcontent : contentOf doc = pass123 doc := by
      simp only [contentOf]
      rw [if_neg]
      simp [List.isEmpty_iff, hp]
    refine ⟨hcontent, fun hee => ?_⟩
    simp only [ParserAgent.parse, if_neg hs, hbs, hcontent]
    rw [if_pos hee]

theorem c7_fallback_pass_witness :
    contentOf docC7 = findAllTags docC7 ∧
      ParserAgent.parse (fun _ => BsResult.ok docC7) (SelResult.raise "")
          (some "<html>") "https://e.com" =
        ((["A body paragraph that is clearly long enough."],
          "Parsed with BeautifulSoup"), 0) := by
  have hc := (c7_fallback_pass docC7 (fun _ => BsResult.ok docC7) (SelResult.raise "")
      "<html>" "https://e.com" (by decide) rfl).1 rfl
  refine ⟨hc.1, ?_⟩
  rw [hc.2 (by decide)]
  rfl

/-- C2 (amended): when the document parses without raising and the static pass
    yields an empty entries list, the Selenium extractor is invoked exactly
    once; when it succeeds with entries they become the result of `process`
    with the `"Parsed with Selenium"` label, while a failed or empty Selenium
    pass makes `process` return absence with the generic reason `"No content
    could be parsed from the page"` (the Selenium failure label is replaced at
    the orchestrator level).  The original claim fails on malformed documents:
    a parsing exception returns an empty result without invoking the rendered
    extractor at all — see the counterexample. -/
theorem c2_render_fallback (env : Nat → FetchEvent) (bs : String → BsResult)
    (sel : SelResult) (url : String) (h : String) (doc : NodeList)
    (hf : (fetch_content env (normalize_url url) 3 2).1 = some h)
    (hs : h ≠ "") (hbs : bs h = BsResult.ok doc)
    (he : (entriesOf (contentOf doc) url).map renderEntry = []) :
    (process_run env bs sel url).selCalls = 1 ∧
      (∀ d2, sel = SelResult.ok d2 →
        (((entriesOf (findAllTags d2) url).map renderEntry ≠ [] →
            (process_run env bs sel url).entries =
              some ((entriesOf (findAllTags d2) url).map renderEntry) ∧
              (process_run env bs sel url).method = "Parsed with Selenium") ∧
          ((entriesOf (findAllTags d2) url).map renderEntry = [] →
            (process_run env bs sel url).entries = none ∧
              (process_run env bs sel url).method =
                "No content could be parsed from the page"))) ∧
      (∀ m, sel = SelResult.raise m →
        (process_run env bs sel url).entries = none ∧
          (process_run env bs sel url).method =
            "No content could be parsed from the page") := by
  have hparse : ParserAgent.parse bs sel (some h) url =
      (parse_with_selenium sel url, 1) := by
    simp only [ParserAgent.parse, if_neg hs, hbs]
    rw [if_pos he]
  refine ⟨?_, fun d2 hd2 => ?_, fun m hm => ?_⟩
  · simp only [process_run, hf, if_neg hs, hparse]
    split <;> rfl
  · subst hd2
    by_cases hne : (entriesOf (findAllTags d2) url).map renderEntry = []
    · refine ⟨fun hcontra => absurd hne hcontra, fun _ => ?_⟩
      simp [process_run, hf, if_neg hs, hparse, parse_with_selenium, hne]
    · refine ⟨fun _ => ?_, fun hcontra => absurd hcontra hne⟩
      simp [process_run, hf, if_neg hs, hparse, parse_with_selenium, hne]
  · subst hm
    simp [process_run, hf, if_neg hs, hparse, parse_with_selenium]

theorem c2_render_fallback_witness :
    (process_run (fun _ => FetchEvent.ok "<html>") (fun _ => BsResult.ok NodeList.nil)
        (SelResult.ok docC2sel) "https://e.com").selCalls = 1 ∧
      (process_run (fun _ => FetchEvent.ok "<html>") (fun _ => BsResult.ok NodeList.nil)
        (SelResult.ok docC2sel) "https://e.com").entries =
        some ["Dynamic content rendered by the browser."] ∧
      (process_run (fun _ => FetchEvent.ok "<html>") (fun _ => BsResult.ok NodeList.nil)
        (SelResult.ok docC2sel) "https://e.com").method = "Parsed with Selenium" := by
  have hc := c2_render_fallback (fun _ => FetchEvent.ok "<html>")
    (fun _ => BsResult.ok NodeList.nil) (SelResult.ok docC2sel) "https://e.com"
    "<html>" NodeList.nil rfl (by decide) rfl rfl
  have hok := (hc.2.1 docC2sel rfl).1 (by decide)
  refine ⟨hc.1, ?_, hok.2⟩
  rw [hok.1]
  rfl

/-- C2 counterexample: a document on which `BeautifulSoup` raises makes
    `parse` return `([], "Parsing error: ...")` directly — the Selenium
    extractor is invoked zero times, not once, and `process` returns the
    generic reason. -/
theorem c2_render_fallback_counterexample :
    process_run (fun _ => FetchEvent.ok "<bad markup>") (fun _ => BsResult.raise "boom")
        (SelResult.ok docC2sel) "https://e.com" =
      ⟨none, "No content could be parsed from the page",
        [Action.sleep 2, Action.request "https://e.com" 0 true], 0⟩ := rfl

/-- C8: `process` returns either a nonempty entries list labelled with the
    strategy that produced it (`"Parsed with BeautifulSoup"` or `"Parsed with
    Selenium"`), or absence together with a failure reason (`"Failed to fetch
    content"` or `"No content could be parsed from the page"`); an empty list
    is never returned as a success, and a nonempty list never carries a
    failure label. -/
theorem c8_result_shape (env : Nat → FetchEvent) (bs : String → BsResult)
    (sel : SelResult) (url : String) :
    ((process_run env bs sel url).entries = none →
        (process_run env bs sel url).method = "Failed to fetch content" ∨
          (process_run env bs sel url).method =
            "No content could be parsed from the page") ∧
      (∀ es, (process_run env bs sel url).entries = some es →
        es ≠ [] ∧
          ((process_run env bs sel url).method = "Parsed with BeautifulSoup" ∨
            (process_run env bs sel url).method = "Parsed with Selenium")) := by
  cases hf : (fetch_content env (normalize_url url) 3 2).1 with
  | none =>
    have hn := process_run_fetch_none env bs sel url hf
    refine ⟨fun _ => Or.inl hn.2, fun es hes => ?_⟩
    rw [hn.1] at hes
    exact Option.noConfusion hes
  | some h =>
    by_cases hs : h = ""
    · refine ⟨fun _ => Or.inl ?_, fun es hes => ?_⟩
      · simp [process_run, hf, hs]
      · simp [process_run, hf, hs] at hes
    · by_cases hp : (ParserAgent.parse bs sel (some h) url).1.1 = []
      · refine ⟨fun _ => Or.inr ?_, fun es hes => ?_⟩
        · simp [process_run, hf, if_neg hs, hp]
        · simp [process_run, hf, if_neg hs, hp] at hes
      · have hm := parse_nonempty_method bs sel (some h) url hp
        refine ⟨fun hc => ?_, fun es hes => ?_⟩
        · simp [process_run, hf, if_neg hs, if_neg hp] at hc
        · simp only [process_run, hf, if_neg hs, if_neg hp] at hes ⊢
          simp only [Option.some.injEq] at hes
          subst hes
          exact ⟨hp, hm⟩

theorem c8_result_shape_witness :
    (["An article paragraph that is long enough."] : List String) ≠ [] ∧
      ((process_run (fun _ => FetchEvent.ok "<html>") (fun _ => BsResult.ok docC8)
          (SelResult.raise "") "https://e.com").method = "Parsed with BeautifulSoup" ∨
        (process_run (fun _ => FetchEvent.ok "<html>") (fun _ => BsResult.ok docC8)
          (SelResult.raise "") "https://e.com").method = "Parsed with Selenium") :=
  (c8_result_shape (fun _ => FetchEvent.ok "<html>") (fun _ => BsResult.ok docC8)
      (SelResult.raise "") "https://e.com").2
    ["An article paragraph that is long enough."] rfl

/-- C9 (amended): the target URL is normalized to carry an explicit scheme
    (`https://` prepended when absent) before any request, and every GET
    request of a run goes to that normalized URL.  The original claim's second
    half fails: no validation exists and no input is ever rejected — `urlparse`
    accepts any string, so even inputs that are not valid URLs produce a
    request (see the counterexample). -/
theorem c9_normalized_scheme (env : Nat → FetchEvent) (bs : String → BsResult)
    (sel : SelResult) (url : String) :
    (pyStartsWith (normalize_url url) "http:" = true ∨
      pyStartsWith (normalize_url url) "https:" = true) ∧
      (∀ u j v, Action.request u j v ∈ (process_run env bs sel url).actions →
        u = normalize_url url) := by
  have key : ∀ l : List Char,
      (listStartsWith l "http://".data = true ∨
        listStartsWith l "https://".data = true) →
      (listStartsWith (urlunsplitL (urlsplitL l [])) "http:".data = true ∨
        listStartsWith (urlunsplitL (urlsplitL l [])) "https:".data = true) := by
    intro l hl
    rcases hl with hl | hl
    · obtain ⟨t, ht⟩ := eq_append_of_listStartsWith _ _ hl
      subst ht
      have hscheme : (urlsplitL ("http://".data ++ t) []).scheme = "http".data := by
        rw [urlsplitL_scheme]
        exact congrArg Prod.fst (splitSchemeL_http _ _)
      obtain ⟨x, hx⟩ := urlunsplitL_scheme _ (by rw [hscheme]; simp)
      left
      rw [hx, hscheme]
      exact listStartsWith_append "http:".data x
    · obtain ⟨t, ht⟩ := eq_append_of_listStartsWith _ _ hl
      subst ht
      have hscheme : (urlsplitL ("https://".data ++ t) []).scheme = "https".data := by
        rw [urlsplitL_scheme]
        exact congrArg Prod.fst (splitSchemeL_https _ _)
      obtain ⟨x, hx⟩ := urlunsplitL_scheme _ (by rw [hscheme]; simp)
      right
      rw [hx, hscheme]
      exact listStartsWith_append "https:".data x
  constructor
  · by_cases hsw : (pyStartsWith url "http://" || pyStartsWith url "https://") = true
    · simp only [normalize_url, if_pos hsw]
      exact key url.data (Bool.or_eq_true _ _ |>.mp hsw)
    · simp only [normalize_url, if_neg hsw]
      exact key ("https://".data ++ url.data)
        (Or.inr (listStartsWith_append "https://".data url.data))
  · intro u j v h
    rw [process_run_actions] at h
    exact (fetchGo_mem_request env (normalize_url url) 2 3 0 u j v h).1

theorem c9_normalized_scheme_witness :
    (pyStartsWith (normalize_url "e.com/x") "http:" = true ∨
      pyStartsWith (normalize_url "e.com/x") "https:" = true) ∧
      "https://e.com/x" = normalize_url "e.com/x" :=
  ⟨(c9_normalized_scheme (fun _ => FetchEvent.ok "b") (fun _ => BsResult.raise "")
      (SelResult.raise "") "e.com/x").1,
   (c9_normalized_scheme (fun _ => FetchEvent.ok "b") (fun _ => BsResult.raise "")
      (SelResult.raise "") "e.com/x").2 "https://e.com/x" 0 true (by decide)⟩

/-- C9 counterexample: the pipeline performs no URL validation — for the
    input `"not a url"`, which is not a valid URL (spaces are not allowed), a
    GET request to `"https://not a url"` is still issued instead of the input
    being rejected before any request. -/
theorem c9_normalized_scheme_counterexample :
    Action.request "https://not a url" 0 true ∈
        (process_run (fun _ => FetchEvent.forbidden) (fun _ => BsResult.raise "")
          (SelResult.raise "") "not a url").actions ∧
      normalize_url "not a url" = "https://not a url" :=
  ⟨by decide, rfl⟩

end GetData
